import Mathlib

/-!
A shallow embedding of the resource-deployment service of this repository
(`resourceTypeService.ts` and the flat Azure account tree-node loader), with
theorems about the provider `when`-clause evaluator, provider selection,
resource-type validation, notebook path rewriting, deployment dispatch, the
download helper, and the tree-node load guard.

Strings are modelled through their character lists (`String.data`), so every
definition evaluates by kernel reduction.  JavaScript truthiness of an
optional/string field is modelled as `Option`/non-empty string as noted at
each definition.
-/

namespace ResourceDeployment

/-! ## String utilities

`String.replace(/\s/g, '')`, `String.prototype.toLowerCase`,
`String.prototype.split('&&')`, `Array.prototype.sort()` and
`Array.prototype.join(',')` are embedded below on character lists. -/

/-- The character class matched by the JavaScript regular expression `\s`
(whitespace), to model `when.replace(/\s/g, '')`. -/
def jsWhitespace (c : Char) : Bool :=
  c = ' ' || c = '\t' || c = '\n' || c = '\r' ||
  c = '\x0b' || c = '\x0c' || c = '\u00a0' || c = '\u1680' ||
  ('\u2000' ≤ c && c ≤ '\u200a') || c = '\u2028' || c = '\u2029' ||
  c = '\u202f' || c = '\u205f' || c = '\u3000' || c = '\ufeff'

/-- Model of `when.replace(/\s/g, '')`: remove every whitespace character. -/
def removeWhitespace (s : String) : String :=
  String.mk (s.data.filter (fun c => !jsWhitespace c))

/-- Model of `String.prototype.toLowerCase`, character-wise. -/
def jsToLowerCase (s : String) : String :=
  String.mk (s.data.map Char.toLower)

/-- Helper for `splitAmp`: prepend a character to the first chunk of a split
result. -/
def consHead (c : Char) : List (List Char) → List (List Char)
  | [] => [[c]]
  | h :: t => (c :: h) :: t

/-- Model of `s.split('&&')` on character lists: split at each leftmost,
non-overlapping occurrence of the two-character separator `&&`. -/
def splitAmp : List Char → List (List Char)
  | [] => [[]]
  | [c] => [[c]]
  | c :: d :: rest =>
    if c = '&' ∧ d = '&' then [] :: splitAmp rest
    else consHead c (splitAmp (d :: rest))

/-- Model of `when.split('&&')` at the string level. -/
def splitOnAmpAmp (s : String) : List String :=
  (splitAmp s.data).map String.mk

/-- Lexicographic comparison of character lists, by code point, modelling the
default `Array.prototype.sort()` string comparison. -/
def listLe : List Char → List Char → Bool
  | [], _ => true
  | _ :: _, [] => false
  | a :: as, b :: bs => if a < b then true else if b < a then false else listLe as bs

/-- String comparison used by `Array.prototype.sort()`. -/
def strLe (a b : String) : Bool := listLe a.data b.data

/-- Insert into a `strLe`-sorted list. -/
def insertSorted (a : String) : List String → List String
  | [] => [a]
  | b :: bs => if strLe a b then a :: b :: bs else b :: insertSorted a bs

/-- Model of `expected.sort()`: sort strings (insertion sort; only the fact that the
result is a permutation of the input matters for the theorems below). -/
def sortStrings : List String → List String
  | [] => []
  | a :: as => insertSorted a (sortStrings as)

/-! ## The `when`-clause evaluator (`processWhenClause`) -/

/-- One entry of the `selectedOptions` argument: an option name and the name
of its selected value. -/
structure SelectedOption where
  option : String
  value : String
deriving DecidableEq, Inhabited

/-- Format one selected pair as the actual-state string, the template
literal of `processWhenClause` that joins option and value with an equals
sign. -/
def formatSelectedOption (o : SelectedOption) : String :=
  o.option ++ "=" ++ o.value

/-- The `for`-loop of `processWhenClause`: return `false` on the first
expected clause missing from `actual` (`actual.indexOf(whenClause) === -1`),
`true` when every clause was found. -/
def checkClauses (expected actual : List String) : Bool :=
  match expected with
  | [] => true
  | c :: rest => if actual.contains c then checkClauses rest actual else false

/-- Embedding of `processWhenClause(when, selectedOptions)` from `resourceTypeService.ts`:
`true` when `when` is `undefined` or case-insensitively the literal `true`;
otherwise strip whitespace, split on `&&`, sort, and require every clause to
occur among the formatted selected options. -/
def processWhenClause (whenClause : Option String) (selectedOptions : List SelectedOption) : Bool :=
  match whenClause with
  | none => true
  | some w =>
    if jsToLowerCase w = "true" then true
    else
      let expected := sortStrings (splitOnAmpAmp (removeWhitespace w))
      let actual := selectedOptions.map formatSelectedOption
      checkClauses expected actual

end ResourceDeployment

namespace ResourceDeployment

/-! ## Lemmas about the string utilities -/

theorem checkClauses_eq_true_iff (expected actual : List String) :
    checkClauses expected actual = true ↔ ∀ c ∈ expected, c ∈ actual := by
  induction expected with
  | nil => simp [checkClauses]
  | cons c rest ih =>
    by_cases h : actual.contains c
    · have hc : c ∈ actual := by
        simpa using h
      simp [checkClauses, h, ih, hc]
    · have hc : c ∉ actual := by
        simpa using h
      simp [checkClauses, h, hc]

theorem insertSorted_perm (a : String) (l : List String) :
    (insertSorted a l).Perm (a :: l) := by
  induction l with
  | nil => simp [insertSorted]
  | cons b bs ih =>
    by_cases h : strLe a b
    · simp [insertSorted, h]
    · simp only [insertSorted, h, if_neg]
      exact (ih.cons b).trans (List.Perm.swap a b bs)

theorem sortStrings_perm (l : List String) : (sortStrings l).Perm l := by
  induction l with
  | nil => simp [sortStrings]
  | cons a as ih =>
    exact (insertSorted_perm a (sortStrings as)).trans (ih.cons a)

end ResourceDeployment

namespace ResourceDeployment

/-! ## C1: characterization of `processWhenClause` -/

example : processWhenClause none [] = true := by decide
example : processWhenClause (some "true") [] = true := by decide
example : processWhenClause (some "TRue") [] = true := by decide
example : processWhenClause (some "a=1&&b=2")
    [⟨"a", "1"⟩, ⟨"b", "2"⟩] = true := by decide
example : processWhenClause (some "a=1&&b=2") [⟨"a", "1"⟩] = false := by decide
example : processWhenClause (some " a = 1 ") [⟨"a", "1"⟩] = true := by decide

/-- C1: for every when string and selected-options list, `processWhenClause`
returns `true` exactly when the clause is absent, case-insensitively the
literal `true`, or every clause obtained by removing all whitespace and
splitting on `&&` occurs verbatim among the formatted selected pairs. -/
theorem processWhenClause_characterization (w : Option String) (sel : List SelectedOption) :
    processWhenClause w sel = true ↔
      (w = none ∨ (∃ s, w = some s ∧ jsToLowerCase s = "true") ∨
        (∃ s, w = some s ∧
          ∀ c ∈ splitOnAmpAmp (removeWhitespace s), c ∈ sel.map formatSelectedOption)) := by
  cases w with
  | none => simp [processWhenClause]
  | some s =>
    by_cases h : jsToLowerCase s = "true"
    · simp [processWhenClause, h]
    · simp only [processWhenClause]
      rw [if_neg h, checkClauses_eq_true_iff]
      have hperm := sortStrings_perm (splitOnAmpAmp (removeWhitespace s))
      constructor
      · intro hall
        refine Or.inr (Or.inr ⟨s, rfl, ?_⟩)
        intro c hc
        exact hall c (hperm.mem_iff.mpr hc)
      · rintro (h0 | ⟨s', hs', ht⟩ | ⟨s', hs', hall⟩)
        · exact (Option.some_ne_none s h0).elim
        · injection hs' with hss
          subst hss
          exact absurd ht h
        · injection hs' with hss
          subst hss
          intro c hc
          exact hall c (hperm.mem_iff.mp hc)

/-- Witness for C1: the characterization evaluated at a concrete clause and
selection. -/
theorem processWhenClause_characterization_witness :
    processWhenClause (some "a=1&&b=2") [⟨"a", "1"⟩, ⟨"b", "2"⟩] = true :=
  (processWhenClause_characterization (some "a=1&&b=2") [⟨"a", "1"⟩, ⟨"b", "2"⟩]).mpr
    (Or.inr (Or.inr ⟨"a=1&&b=2", rfl, by decide⟩))

end ResourceDeployment

namespace ResourceDeployment

/-! ## C2: order-independence of the clauses of a when string

The permuted when string is built by joining the permuted clause list with
`&&` (the inverse of the split performed by `processWhenClause`). -/

/-- Model of `Array.prototype.join('&&')` on character lists. -/
def joinAmpData : List (List Char) → List Char
  | [] => []
  | [a] => a
  | a :: b :: rest => a ++ '&' :: '&' :: joinAmpData (b :: rest)

/-- Join clause strings with the separator `&&`, as `Array.prototype.join`
does. -/
def joinAmpAmp : List String → String
  | [] => ""
  | [a] => a
  | a :: b :: rest => a ++ "&&" ++ joinAmpAmp (b :: rest)

theorem joinAmpAmp_data (cs : List String) :
    (joinAmpAmp cs).data = joinAmpData (cs.map String.data) := by
  induction cs with
  | nil => rfl
  | cons a rest ih =>
    cases rest with
    | nil => rfl
    | cons b t =>
      show ((a ++ "&&") ++ joinAmpAmp (b :: t)).data = _
      rw [String.data_append, String.data_append, ih]
      simp [joinAmpData]

theorem splitAmp_no_amp (a : List Char) (h : '&' ∉ a) : splitAmp a = [a] := by
  induction a with
  | nil => rfl
  | cons c t ih =>
    cases t with
    | nil => rfl
    | cons d t' =>
      have hc : c ≠ '&' := fun hc => h (hc ▸ List.mem_cons_self c _)
      have ht : '&' ∉ d :: t' := fun hm => h (List.mem_cons_of_mem c hm)
      simp only [splitAmp]
      rw [if_neg (fun hand => hc hand.1), ih ht]
      rfl

theorem splitAmp_sep (a rest : List Char) (h : '&' ∉ a) :
    splitAmp (a ++ '&' :: '&' :: rest) = a :: splitAmp rest := by
  induction a with
  | nil => simp [splitAmp]
  | cons c t ih =>
    have hc : c ≠ '&' := fun hc => h (hc ▸ List.mem_cons_self c _)
    have ht : '&' ∉ t := fun hm => h (List.mem_cons_of_mem c hm)
    rcases hcons : t ++ '&' :: '&' :: rest with _ | ⟨b, l⟩
    · exact absurd hcons (List.append_ne_nil_of_right_ne_nil t (by simp))
    · show splitAmp (c :: (t ++ '&' :: '&' :: rest)) = _
      rw [hcons]
      simp only [splitAmp]
      rw [if_neg (fun hand => hc hand.1), ← hcons, ih ht]
      rfl

theorem splitAmp_join (cs : List (List Char)) (hne : cs ≠ [])
    (hamp : ∀ c ∈ cs, '&' ∉ c) :
    splitAmp (joinAmpData cs) = cs := by
  induction cs with
  | nil => exact absurd rfl hne
  | cons a rest ih =>
    cases rest with
    | nil =>
      exact splitAmp_no_amp a (hamp a (List.mem_cons_self a _))
    | cons b t =>
      show splitAmp (a ++ '&' :: '&' :: joinAmpData (b :: t)) = _
      rw [splitAmp_sep a _ (hamp a (List.mem_cons_self a _))]
      rw [ih (by simp) (fun c hc => hamp c (List.mem_cons_of_mem a hc))]

theorem filter_joinAmpData (p : Char → Bool) (hp : p '&' = true)
    (cs : List (List Char)) :
    (joinAmpData cs).filter p = joinAmpData (cs.map (List.filter p)) := by
  induction cs with
  | nil => rfl
  | cons a rest ih =>
    cases rest with
    | nil => rfl
    | cons b t =>
      show (a ++ '&' :: '&' :: joinAmpData (b :: t)).filter p = _
      rw [List.filter_append]
      simp only [List.filter_cons, hp, if_pos]
      rw [ih]
      rfl

theorem amp_mem_jsToLowerCase (s : String) (h : '&' ∈ s.data) :
    '&' ∈ (jsToLowerCase s).data := by
  have : Char.toLower '&' = '&' := by decide
  exact this ▸ List.mem_map_of_mem Char.toLower h

theorem jsToLowerCase_ne_true_of_amp (s : String) (h : '&' ∈ s.data) :
    jsToLowerCase s ≠ "true" := by
  intro heq
  have hmem := amp_mem_jsToLowerCase s h
  rw [heq] at hmem
  exact absurd hmem (by decide)

theorem checkClauses_perm (e₁ e₂ actual : List String) (h : e₁.Perm e₂) :
    checkClauses e₁ actual = checkClauses e₂ actual := by
  rw [Bool.eq_iff_iff, checkClauses_eq_true_iff, checkClauses_eq_true_iff]
  constructor
  · intro hall c hc
    exact hall c (h.mem_iff.mpr hc)
  · intro hall c hc
    exact hall c (h.mem_iff.mp hc)

theorem removeWhitespace_joinAmpAmp (cs : List String) :
    removeWhitespace (joinAmpAmp cs) = joinAmpAmp (cs.map removeWhitespace) := by
  apply congrArg String.mk ∘ id
  show (removeWhitespace (joinAmpAmp cs)).data = (joinAmpAmp (cs.map removeWhitespace)).data
  rw [show (removeWhitespace (joinAmpAmp cs)).data
        = ((joinAmpAmp cs).data).filter (fun c => !jsWhitespace c) from rfl]
  rw [joinAmpAmp_data, joinAmpAmp_data, filter_joinAmpData _ (by decide)]
  rw [List.map_map, List.map_map]
  rfl

end ResourceDeployment

namespace ResourceDeployment

theorem splitOnAmpAmp_joinAmpAmp (ds : List String) (hne : ds ≠ [])
    (hamp : ∀ c ∈ ds, '&' ∉ c.data) :
    splitOnAmpAmp (removeWhitespace (joinAmpAmp ds)) = ds.map removeWhitespace := by
  unfold splitOnAmpAmp
  rw [removeWhitespace_joinAmpAmp, joinAmpAmp_data, List.map_map]
  rw [splitAmp_join ((ds.map (String.data ∘ removeWhitespace))) ?hne ?hamp]
  case hne =>
    simpa using hne
  case hamp =>
    intro c hc
    rw [List.mem_map] at hc
    obtain ⟨s, hs, rfl⟩ := hc
    exact fun h => hamp s hs (List.mem_of_mem_filter h)
  rw [List.map_map]
  have hid : (String.mk ∘ String.data ∘ removeWhitespace) = removeWhitespace :=
    funext fun s => rfl
  rw [hid]

/-- C2 (amended): when no clause contains the character `&`, permuting the
`&&`-joined clauses of a when string does not change the result of
`processWhenClause`, for every selected-options list. -/
theorem processWhenClause_clause_perm (cs cs' : List String) (sel : List SelectedOption)
    (hperm : cs.Perm cs') (hamp : ∀ c ∈ cs, '&' ∉ c.data) :
    processWhenClause (some (joinAmpAmp cs)) sel
      = processWhenClause (some (joinAmpAmp cs')) sel := by
  rcases cs with _ | ⟨a, _ | ⟨b, t⟩⟩
  · rw [hperm.symm.eq_nil]
  · rw [List.singleton_perm.mp hperm]
  · have hlen := hperm.length_eq
    rcases cs' with _ | ⟨a', _ | ⟨b', t'⟩⟩
    · simp at hlen
    · simp at hlen
    · have hamp' : ∀ c ∈ a' :: b' :: t', '&' ∉ c.data :=
        fun c hc => hamp c (hperm.mem_iff.mpr hc)
      have hin : '&' ∈ (joinAmpAmp (a :: b :: t)).data := by
        rw [joinAmpAmp_data]
        exact List.mem_append_right _ (List.mem_cons_self _ _)
      have hin' : '&' ∈ (joinAmpAmp (a' :: b' :: t')).data := by
        rw [joinAmpAmp_data]
        exact List.mem_append_right _ (List.mem_cons_self _ _)
      simp only [processWhenClause]
      rw [if_neg (jsToLowerCase_ne_true_of_amp _ hin),
        if_neg (jsToLowerCase_ne_true_of_amp _ hin')]
      apply checkClauses_perm
      rw [splitOnAmpAmp_joinAmpAmp _ (by simp) hamp,
        splitOnAmpAmp_joinAmpAmp _ (by simp) hamp']
      exact (sortStrings_perm _).trans
        ((hperm.map removeWhitespace).trans (sortStrings_perm _).symm)

/-- Witness for C2 (amended): the particular instance of the claim, with the
clauses `a=1` and `b=2` swapped. -/
theorem processWhenClause_clause_perm_witness :
    processWhenClause (some (joinAmpAmp ["a=1", "b=2"])) [⟨"a", "1"⟩]
      = processWhenClause (some (joinAmpAmp ["b=2", "a=1"])) [⟨"a", "1"⟩] :=
  processWhenClause_clause_perm ["a=1", "b=2"] ["b=2", "a=1"] [⟨"a", "1"⟩]
    (List.Perm.swap "b=2" "a=1" []) (by decide)

/-- Counterexample to C2 as stated: the when string `b=2&&a=1&` has clauses
`b=2` and `a=1&`; joining the permuted clause list `[a=1&, b=2]` yields
`a=1&&&b=2`, and the two strings evaluate differently on the same selected
options (the trailing `&` of the first clause fuses with the separator). -/
theorem processWhenClause_clause_perm_counterexample :
    splitOnAmpAmp (removeWhitespace "b=2&&a=1&") = ["b=2", "a=1&"] ∧
    joinAmpAmp ["b=2", "a=1&"] = "b=2&&a=1&" ∧
    List.Perm ["b=2", "a=1&"] ["a=1&", "b=2"] ∧
    joinAmpAmp ["a=1&", "b=2"] = "a=1&&&b=2" ∧
    processWhenClause (some "b=2&&a=1&") [⟨"b", "2"⟩, ⟨"a", "1&"⟩] = true ∧
    processWhenClause (some "a=1&&&b=2") [⟨"b", "2"⟩, ⟨"a", "1&"⟩] = false :=
  ⟨by decide, by decide, List.Perm.swap "a=1&" "b=2" [], by decide, by decide, by decide⟩

end ResourceDeployment

namespace ResourceDeployment

/-! ## Data model of `ResourceType` and `DeploymentProvider`

The provider variants of `interfaces.ts` are distinguished in the source by
shape-sniffing `instanceOf*` predicates; `interfaces.ts` itself is not among
the embedded sources, so the variants are modelled from the spec as a closed
tagged union (spec section 3: a tagged union over wizard, notebook-wizard,
dialog, notebook, download, web-page, command, azure-SQL-VM-wizard,
azure-SQL-DB-wizard). -/

/-- Modelled from the spec: the tag of a provider variant, one per deployment
method recognized by the `instanceOf*` predicates of `interfaces.ts`. -/
inductive ProviderKind where
  | wizard
  | notebookWizard
  | dialog
  | notebook
  | download
  | webPage
  | command
  | azureSQLVMWizard
  | azureSQLDBWizard
deriving DecidableEq, Inhabited

/-- The `NotebookPathInfo` shape: one optional relative path per platform. -/
structure NotebookPathInfo where
  darwin : Option String
  win32 : Option String
  linux : Option String
deriving DecidableEq, Inhabited

/-- The `NotebookInfo` shape (only the `path` field is relevant to the
embedded code). -/
structure NotebookInfo where
  path : String
deriving DecidableEq, Inhabited

/-- The union type `string | NotebookPathInfo | NotebookInfo[]` of a
`notebook` property. -/
inductive NotebookProperty where
  | text (path : String)
  | perVersion (entries : List NotebookInfo)
  | perPlatform (paths : NotebookPathInfo)
deriving DecidableEq, Inhabited

/-- A provider variant: its tag, `when` clause, required tool names, and the
payload fields the embedded service reads. `none`/empty string stand for a
missing (JavaScript `undefined`) field. -/
structure DeploymentProvider where
  kind : ProviderKind
  whenClause : Option String
  requiredTools : List String
  notebook : Option NotebookProperty
  downloadUrl : String
  webPageUrl : String
  command : String
deriving DecidableEq, Inhabited

/-- The `icon` field shape of a resource type. -/
structure IconPathInfo where
  dark : String
  light : String
deriving DecidableEq, Inhabited

/-- One value of a resource-type option. -/
structure OptionValueInfo where
  name : String
  displayName : String
deriving DecidableEq, Inhabited

/-- One configurable option of a resource type. -/
structure ResourceTypeOption where
  name : String
  displayName : String
  values : List OptionValueInfo
deriving DecidableEq, Inhabited

/-- One entry of the `okButtonText` rules: a `when` clause and the text to
use when it matches. -/
structure OkButtonInfo where
  whenClause : Option String
  value : String
deriving DecidableEq, Inhabited

/-- A resource type as consumed by `ResourceTypeService`: name, display
name, icon, ordered options, ordered provider variants, optional ok-button
rules. `icon = none` and `okButtonText = none` stand for missing fields. -/
structure ResourceType where
  name : String
  displayName : String
  icon : Option IconPathInfo
  options : List ResourceTypeOption
  providers : List DeploymentProvider
  okButtonText : Option (List OkButtonInfo)
deriving DecidableEq, Inhabited

/-! ## C3: `getProvider` (the `selectProvider` contract) -/

/-- The indexed `for`-loop of `ResourceTypeService.getProvider`: return the
first provider whose `when` clause evaluates true. -/
def findFirstProvider (providers : List DeploymentProvider)
    (sel : List SelectedOption) : Option DeploymentProvider :=
  match providers with
  | [] => none
  | p :: rest =>
    if processWhenClause p.whenClause sel then some p else findFirstProvider rest sel

/-- Embedding of `ResourceTypeService.getProvider(resourceType,
selectedOptions)`. -/
def getProvider (resourceType : ResourceType) (sel : List SelectedOption) :
    Option DeploymentProvider :=
  findFirstProvider resourceType.providers sel

theorem findFirstProvider_eq_none_iff (ps : List DeploymentProvider) (sel : List SelectedOption) :
    findFirstProvider ps sel = none ↔
      ∀ p ∈ ps, processWhenClause p.whenClause sel = false := by
  induction ps with
  | nil => simp [findFirstProvider]
  | cons p rest ih =>
    by_cases h : processWhenClause p.whenClause sel
    · simp [findFirstProvider, h]
    · simp only [findFirstProvider, if_neg h]
      rw [ih]
      constructor
      · intro hall q hq
        rcases List.mem_cons.mp hq with rfl | hq'
        · exact Bool.of_not_eq_true h
        · exact hall q hq'
      · intro hall q hq
        exact hall q (List.mem_cons_of_mem p hq)

theorem findFirstProvider_eq_some_iff (ps : List DeploymentProvider)
    (sel : List SelectedOption) (p : DeploymentProvider) :
    findFirstProvider ps sel = some p ↔
      (processWhenClause p.whenClause sel = true ∧
        ∃ ps₁ ps₂, ps = ps₁ ++ p :: ps₂ ∧
          ∀ q ∈ ps₁, processWhenClause q.whenClause sel = false) := by
  induction ps with
  | nil =>
    simp only [findFirstProvider]
    constructor
    · intro h
      exact absurd h (by simp)
    · rintro ⟨-, ps₁, ps₂, h, -⟩
      exact absurd h.symm (List.append_ne_nil_of_right_ne_nil ps₁ (by simp))
  | cons p₀ rest ih =>
    by_cases h : processWhenClause p₀.whenClause sel
    · simp only [findFirstProvider, if_pos h]
      constructor
      · intro hp
        injection hp with hp
        subst hp
        exact ⟨h, [], rest, rfl, by simp⟩
      · rintro ⟨hp, ps₁, ps₂, hdec, hfirst⟩
        rcases ps₁ with _ | ⟨q, ps₁'⟩
        · injection hdec with h1 h2
          rw [h1]
        · injection hdec with h1 h2
          subst h1
          exact absurd h (by simp [hfirst p₀ (List.mem_cons_self p₀ ps₁')])
    · simp only [findFirstProvider, if_neg h]
      rw [ih]
      constructor
      · rintro ⟨hp, ps₁, ps₂, hdec, hfirst⟩
        refine ⟨hp, p₀ :: ps₁, ps₂, by rw [hdec]; rfl, ?_⟩
        intro q hq
        rcases List.mem_cons.mp hq with rfl | hq'
        · exact Bool.of_not_eq_true h
        · exact hfirst q hq'
      · rintro ⟨hp, ps₁, ps₂, hdec, hfirst⟩
        rcases ps₁ with _ | ⟨q, ps₁'⟩
        · injection hdec with h1 h2
          subst h1
          exact absurd hp h
        · injection hdec with h1 h2
          subst h2
          exact ⟨hp, ps₁', ps₂, rfl, fun r hr => hfirst r (List.mem_cons_of_mem q hr)⟩

/-- C3: `getProvider` returns the first provider, in declared order, whose
`when` clause evaluates true under the selected options, and `undefined`
(`none`) exactly when no provider matches; when two providers match, the
earlier one is returned (every provider before the result fails its
clause). -/
theorem getProvider_first_match (resourceType : ResourceType) (sel : List SelectedOption) :
    (getProvider resourceType sel = none ↔
      ∀ p ∈ resourceType.providers, processWhenClause p.whenClause sel = false) ∧
    (∀ p, getProvider resourceType sel = some p ↔
      (processWhenClause p.whenClause sel = true ∧
        ∃ ps₁ ps₂, resourceType.providers = ps₁ ++ p :: ps₂ ∧
          ∀ q ∈ ps₁, processWhenClause q.whenClause sel = false)) :=
  ⟨findFirstProvider_eq_none_iff resourceType.providers sel,
    fun p => findFirstProvider_eq_some_iff resourceType.providers sel p⟩

end ResourceDeployment

namespace ResourceDeployment

/-- A provider variant used in concrete fixtures: always-matching `when`
clause (absent), no tools, no payload. -/
def fixtureProvider (kind : ProviderKind) : DeploymentProvider :=
  ⟨kind, none, [], none, "", "", ""⟩

/-- Witness for C3: a fixture with two always-matching providers; the first
one, in declared order, is chosen. -/
theorem getProvider_first_match_witness :
    getProvider ⟨"t", "T", none, [],
      [fixtureProvider .wizard, fixtureProvider .dialog], none⟩ []
      = some (fixtureProvider .wizard) :=
  ((getProvider_first_match ⟨"t", "T", none, [],
      [fixtureProvider .wizard, fixtureProvider .dialog], none⟩ []).2
    (fixtureProvider .wizard)).mpr
    ⟨rfl, [], [fixtureProvider .dialog], rfl, by simp⟩

/-! ## C10: `getOkButtonText` never returns `undefined` -/

/-- Modelled from the spec: the default ok-button label `loc.select` from
`localizedConstants.ts`, which is not among the embedded sources; the claim
identifies it as the default `Select` text. -/
def locSelect : String := "Select"

/-- The `for`-loop of `ResourceTypeService.getOkButtonText`: the value of
the first rule whose `when` clause matches. -/
def findOkButtonText (rules : List OkButtonInfo) (sel : List SelectedOption) :
    Option String :=
  match rules with
  | [] => none
  | o :: rest =>
    if processWhenClause o.whenClause sel then some o.value
    else findOkButtonText rest sel

/-- Embedding of `ResourceTypeService.getOkButtonText(resourceType,
selectedOptions)`: declared `string | undefined`, it falls through to
`loc.select` when `okButtonText` is missing or no rule matches. -/
def getOkButtonText (resourceType : ResourceType) (sel : List SelectedOption) :
    Option String :=
  match resourceType.okButtonText with
  | some rules =>
    match findOkButtonText rules sel with
    | some v => some v
    | none => some locSelect
  | none => some locSelect

theorem findOkButtonText_eq_none_iff (rules : List OkButtonInfo) (sel : List SelectedOption) :
    findOkButtonText rules sel = none ↔
      ∀ o ∈ rules, processWhenClause o.whenClause sel = false := by
  induction rules with
  | nil => simp [findOkButtonText]
  | cons o rest ih =>
    by_cases h : processWhenClause o.whenClause sel
    · simp [findOkButtonText, h]
    · simp only [findOkButtonText, if_neg h]
      rw [ih]
      constructor
      · intro hall q hq
        rcases List.mem_cons.mp hq with rfl | hq'
        · exact Bool.of_not_eq_true h
        · exact hall q hq'
      · intro hall q hq
        exact hall q (List.mem_cons_of_mem o hq)

/-- C10: `getOkButtonText` always returns a string, never `undefined`; when
the resource type has no `okButtonText` rules or no rule matches, it returns
the default `Select` text. -/
theorem getOkButtonText_never_undefined (resourceType : ResourceType)
    (sel : List SelectedOption) :
    getOkButtonText resourceType sel ≠ none ∧
    ((resourceType.okButtonText = none ∨
        ∃ rules, resourceType.okButtonText = some rules ∧
          ∀ o ∈ rules, processWhenClause o.whenClause sel = false) →
      getOkButtonText resourceType sel = some locSelect) := by
  constructor
  · unfold getOkButtonText
    match h : resourceType.okButtonText with
    | none => simp
    | some rules =>
      match hf : findOkButtonText rules sel with
      | none => simp [hf]
      | some v => simp [hf]
  · rintro (h | ⟨rules, hr, hall⟩)
    · simp only [getOkButtonText, h]
    · simp only [getOkButtonText, hr,
        (findOkButtonText_eq_none_iff rules sel).mpr hall]

/-- Witness for C10: a resource type with no ok-button rules yields the
default text. -/
theorem getOkButtonText_never_undefined_witness :
    getOkButtonText ⟨"t", "T", none, [], [], none⟩ [] = some locSelect :=
  (getOkButtonText_never_undefined ⟨"t", "T", none, [], [], none⟩ []).2 (Or.inl rfl)

end ResourceDeployment

namespace ResourceDeployment

/-! ## Validation (`validateResourceTypes` and helpers) -/

/-- Modelled from the spec: the shape-sniffing predicate
`instanceOfWizardDeploymentProvider` of `interfaces.ts`, which recognizes
exactly the wizard variant of the provider tagged union. -/
def instanceOfWizardDeploymentProvider (p : DeploymentProvider) : Bool :=
  p.kind == .wizard

/-- Modelled from the spec: recognizer of the notebook-wizard variant. -/
def instanceOfNotebookWizardDeploymentProvider (p : DeploymentProvider) : Bool :=
  p.kind == .notebookWizard

/-- Modelled from the spec: recognizer of the dialog variant. -/
def instanceOfDialogDeploymentProvider (p : DeploymentProvider) : Bool :=
  p.kind == .dialog

/-- Modelled from the spec: recognizer of the notebook variant. -/
def instanceOfNotebookDeploymentProvider (p : DeploymentProvider) : Bool :=
  p.kind == .notebook

/-- Modelled from the spec: recognizer of the download variant. -/
def instanceOfDownloadDeploymentProvider (p : DeploymentProvider) : Bool :=
  p.kind == .download

/-- Modelled from the spec: recognizer of the web-page variant. -/
def instanceOfWebPageDeploymentProvider (p : DeploymentProvider) : Bool :=
  p.kind == .webPage

/-- Modelled from the spec: recognizer of the command variant. -/
def instanceOfCommandDeploymentProvider (p : DeploymentProvider) : Bool :=
  p.kind == .command

/-- Modelled from the spec: recognizer of the azure-SQL-VM-wizard variant. -/
def instanceOfAzureSQLVMDeploymentProvider (p : DeploymentProvider) : Bool :=
  p.kind == .azureSQLVMWizard

/-- Modelled from the spec: recognizer of the azure-SQL-DB-wizard variant. -/
def instanceOfAzureSQLDBDeploymentProvider (p : DeploymentProvider) : Bool :=
  p.kind == .azureSQLDBWizard

/-- Embedding of `validateNameDisplayName(obj, type, positionInfo,
errorMessages)`: the messages it pushes (JavaScript falsiness of a string is
modelled as emptiness). -/
def validateNameDisplayName (name displayName typeName positionInfo : String) :
    List String :=
  (if name = "" then ["Name of the " ++ typeName ++ " is empty." ++ positionInfo ++ " "]
   else []) ++
  (if displayName = ""
   then ["Display name of the " ++ typeName ++ " is empty." ++ positionInfo ++ " "]
   else [])

/-- Model of `Array.prototype.join(',')`. -/
def joinComma : List String → String
  | [] => ""
  | [a] => a
  | a :: b :: rest => a ++ "," ++ joinComma (b :: rest)

/-- The inner `for`-loop of `validateResourceTypeOption`: the 1-based
positions, after position `i`, of values sharing a name or display name with
the value at 0-based index `i`. -/
def dupePositions (values : List OptionValueInfo) (i : Nat) : List Nat :=
  ((List.range values.length).filter (fun j =>
    decide (i < j) &&
      ((values.getD i default).name == (values.getD j default).name ||
        (values.getD i default).displayName == (values.getD j default).displayName))).map
    (· + 1)

/-- The duplicate-report message pushed by `validateResourceTypeOption`. -/
def dupeMessage (i : Nat) (dupes : List Nat) (positionInfo : String) : String :=
  "Option values with same name or display name are found at the following positions: "
    ++ toString (i + 1) ++ ", " ++ joinComma (dupes.map toString) ++ "."
    ++ positionInfo ++ " "

/-- The outer uniqueness `for`-loop of `validateResourceTypeOption`: one
duplicate-report message per value with non-empty name and display name that
has later conflicting values. -/
def uniqueValueMessages (values : List OptionValueInfo) (positionInfo : String) :
    List String :=
  (List.range values.length).flatMap (fun i =>
    let vi := values.getD i default
    if vi.name ≠ "" ∧ vi.displayName ≠ "" then
      let dupes := dupePositions values i
      if dupes = [] then [] else [dupeMessage i dupes positionInfo]
    else [])

/-- Embedding of `validateResourceTypeOption(option, positionInfo,
errorMessages)`. -/
def validateResourceTypeOption (opt : ResourceTypeOption) (positionInfo : String) :
    List String :=
  validateNameDisplayName opt.name opt.displayName "option" positionInfo ++
  (if opt.values = [] then ["Option contains no values." ++ positionInfo ++ " "]
   else
    (opt.values.enum.flatMap (fun p =>
      validateNameDisplayName p.2.name p.2.displayName "option value"
        (positionInfo ++ ", option value index: " ++ toString (p.1 + 1) ++ " "))) ++
    uniqueValueMessages opt.values positionInfo)

/-- Embedding of `validateProviders(resourceType, positionInfo,
errorMessages)`; the tool lookup collaborator (`toolsService.getToolByName`)
is passed as the predicate `toolFound`. -/
def validateProviders (toolFound : String → Bool) (resourceType : ResourceType)
    (positionInfo : String) : List String :=
  if resourceType.providers = [] then
    ["No providers defined for resource type, " ++ positionInfo]
  else
    resourceType.providers.enum.flatMap (fun p =>
      let providerPositionInfo :=
        positionInfo ++ ", provider index: " ++ toString (p.1 + 1) ++ " "
      (if !instanceOfWizardDeploymentProvider p.2 &&
          !instanceOfNotebookWizardDeploymentProvider p.2 &&
          !instanceOfDialogDeploymentProvider p.2 &&
          !instanceOfNotebookDeploymentProvider p.2 &&
          !instanceOfDownloadDeploymentProvider p.2 &&
          !instanceOfWebPageDeploymentProvider p.2 &&
          !instanceOfCommandDeploymentProvider p.2 &&
          !instanceOfAzureSQLVMDeploymentProvider p.2 &&
          !instanceOfAzureSQLDBDeploymentProvider p.2 then
        ["No deployment method defined for the provider, " ++ providerPositionInfo]
       else []) ++
      p.2.requiredTools.flatMap (fun toolName =>
        if toolFound toolName then []
        else ["The tool is not supported: " ++ toolName ++ ", "
          ++ providerPositionInfo ++ " "]))

/-- Embedding of `validateResourceType(resourceType, positionInfo,
errorMessages)`. -/
def validateResourceType (toolFound : String → Bool) (resourceType : ResourceType)
    (positionInfo : String) : List String :=
  validateNameDisplayName resourceType.name resourceType.displayName
    "resource type" positionInfo ++
  (match resourceType.icon with
   | none => ["Icon for resource type is not specified properly. " ++ positionInfo ++ " "]
   | some icon =>
     if icon.dark = "" ∨ icon.light = "" then
       ["Icon for resource type is not specified properly. " ++ positionInfo ++ " "]
     else []) ++
  (if resourceType.options = [] then []
   else resourceType.options.enum.flatMap (fun p =>
     validateResourceTypeOption p.2
       (positionInfo ++ ", option index: " ++ toString (p.1 + 1) ++ " "))) ++
  validateProviders toolFound resourceType positionInfo

/-- Embedding of `ResourceTypeService.validateResourceTypes(resourceTypes)`. -/
def validateResourceTypes (toolFound : String → Bool)
    (resourceTypes : List ResourceType) : List String :=
  if resourceTypes = [] then ["Resource type list is empty"]
  else
    resourceTypes.enum.flatMap (fun p =>
      validateResourceType toolFound p.2
        ("resource type index: " ++ toString (p.1 + 1)))

end ResourceDeployment

namespace ResourceDeployment

/-! ## Substring occurrence, for reasoning about error-message contents -/

/-- Proposition that `sub` occurs contiguously inside `s`. -/
def occursIn (sub s : String) : Prop :=
  ∃ pre suf : List Char, s.data = pre ++ sub.data ++ suf

theorem occursIn_self (s : String) : occursIn s s :=
  ⟨[], [], by simp⟩

theorem occursIn_left (s b : String) : occursIn s (s ++ b) :=
  ⟨[], b.data, by simp [String.data_append]⟩

theorem occursIn_right (a s : String) : occursIn s (a ++ s) :=
  ⟨a.data, [], by simp [String.data_append]⟩

theorem occursIn_append_left (a : String) {sub s : String} (h : occursIn sub s) :
    occursIn sub (a ++ s) := by
  obtain ⟨p, q, hd⟩ := h
  exact ⟨a.data ++ p, q, by simp [String.data_append, hd]⟩

theorem occursIn_append_right (b : String) {sub s : String} (h : occursIn sub s) :
    occursIn sub (s ++ b) := by
  obtain ⟨p, q, hd⟩ := h
  exact ⟨p, q ++ b.data, by simp [String.data_append, hd]⟩

theorem mem_joinComma_occursIn (x : String) (l : List String) (h : x ∈ l) :
    occursIn x (joinComma l) := by
  induction l with
  | nil => cases h
  | cons a rest ih =>
    cases rest with
    | nil =>
      obtain rfl := List.mem_singleton.mp h
      exact occursIn_self x
    | cons b t =>
      rcases List.mem_cons.mp h with rfl | h'
      · exact occursIn_append_right _ (occursIn_left x ",")
      · exact occursIn_append_left (a ++ ",") (ih h')

theorem occursIn_dupeMessage_fst (i : Nat) (dupes : List Nat) (positionInfo : String) :
    occursIn (toString (i + 1)) (dupeMessage i dupes positionInfo) :=
  occursIn_append_right _ (occursIn_append_right _ (occursIn_append_right _
    (occursIn_append_right _ (occursIn_append_right _
      (occursIn_right _ (toString (i + 1)))))))

theorem occursIn_dupeMessage_snd (n i : Nat) (dupes : List Nat) (positionInfo : String)
    (h : n ∈ dupes) :
    occursIn (toString n) (dupeMessage i dupes positionInfo) :=
  occursIn_append_right _ (occursIn_append_right _ (occursIn_append_right _
    (occursIn_append_left _
      (mem_joinComma_occursIn _ _ (List.mem_map_of_mem toString h)))))

theorem occursIn_dupeMessage_label (i : Nat) (dupes : List Nat) (positionInfo : String) :
    occursIn "same name or display name" (dupeMessage i dupes positionInfo) := by
  have hA :
      ("Option values with same name or display name are found at the following positions: "
        : String)
      = ("Option values with " ++ "same name or display name")
        ++ " are found at the following positions: " := by decide
  unfold dupeMessage
  rw [hA]
  exact occursIn_append_right _ (occursIn_append_right _ (occursIn_append_right _
    (occursIn_append_right _ (occursIn_append_right _ (occursIn_append_right _
      (occursIn_append_right _ (occursIn_right "Option values with " _)))))))

end ResourceDeployment

namespace ResourceDeployment

/-! ## C6: duplicate option values are reported with 1-based positions -/

theorem getD_of_getQ {α : Type _} [Inhabited α] (l : List α) (n : Nat) (x : α)
    (h : l.get? n = some x) : l.getD n default = x := by
  simp [List.getD, List.get?_eq_getElem?] at h ⊢
  simp [h]

theorem mem_enum_flatMap {α : Type _} (l : List α) (f : Nat × α → List String)
    (k : Nat) (x : α) (hk : l.get? k = some x) {m : String} (hm : m ∈ f (k, x)) :
    m ∈ l.enum.flatMap f :=
  List.mem_flatMap.mpr ⟨(k, x),
    by rw [List.mem_enum_iff_getElem?, ← List.get?_eq_getElem?]; exact hk, hm⟩

/-- C6: whenever an option of some resource type has two values (0-based
indices `i < j`) sharing a name or a display name, the earlier one having
non-empty name and display name, `validateResourceTypes` returns a
duplicate-report error message mentioning the 1-based positions `i + 1` and
`j + 1` of the conflicting entries. -/
theorem validateResourceTypes_reports_duplicate_values
    (toolFound : String → Bool) (rts : List ResourceType)
    (k : Nat) (rt : ResourceType) (hk : rts.get? k = some rt)
    (m : Nat) (opt : ResourceTypeOption) (hm : rt.options.get? m = some opt)
    (i j : Nat) (vi vj : OptionValueInfo)
    (hi : opt.values.get? i = some vi) (hj : opt.values.get? j = some vj)
    (hij : i < j)
    (hconf : vi.name = vj.name ∨ vi.displayName = vj.displayName)
    (hni : vi.name ≠ "") (hdi : vi.displayName ≠ "") :
    ∃ msg ∈ validateResourceTypes toolFound rts,
      occursIn "same name or display name" msg ∧
      occursIn (toString (i + 1)) msg ∧ occursIn (toString (j + 1)) msg := by
  have hjlen : j < opt.values.length := (List.get?_eq_some.mp hj).1
  have hilen : i < opt.values.length := (List.get?_eq_some.mp hi).1
  have hgi : opt.values.getD i default = vi := getD_of_getQ _ _ _ hi
  have hgj : opt.values.getD j default = vj := getD_of_getQ _ _ _ hj
  have hjmem : j + 1 ∈ dupePositions opt.values i := by
    unfold dupePositions
    apply List.mem_map_of_mem
    apply List.mem_filter.mpr
    refine ⟨List.mem_range.mpr hjlen, ?_⟩
    rw [hgi, hgj]
    rcases hconf with h | h <;> simp [hij, h]
  have hdne : dupePositions opt.values i ≠ [] := List.ne_nil_of_mem hjmem
  refine ⟨dupeMessage i (dupePositions opt.values i)
      (("resource type index: " ++ toString (k + 1))
        ++ ", option index: " ++ toString (m + 1) ++ " "), ?_,
    occursIn_dupeMessage_label _ _ _,
    occursIn_dupeMessage_fst _ _ _,
    occursIn_dupeMessage_snd _ _ _ _ hjmem⟩
  have hrtne : rts ≠ [] := List.ne_nil_of_mem (List.get?_mem hk)
  unfold validateResourceTypes
  rw [if_neg hrtne]
  apply mem_enum_flatMap rts _ k rt hk
  show _ ∈ validateResourceType toolFound rt ("resource type index: " ++ toString (k + 1))
  unfold validateResourceType
  apply List.mem_append_left
  apply List.mem_append_right
  have hoptne : rt.options ≠ [] := List.ne_nil_of_mem (List.get?_mem hm)
  rw [if_neg hoptne]
  apply mem_enum_flatMap rt.options _ m opt hm
  show _ ∈ validateResourceTypeOption opt
    (("resource type index: " ++ toString (k + 1))
      ++ ", option index: " ++ toString (m + 1) ++ " ")
  unfold validateResourceTypeOption
  apply List.mem_append_right
  have hvne : opt.values ≠ [] := List.ne_nil_of_mem (List.get?_mem hi)
  rw [if_neg hvne]
  apply List.mem_append_right
  unfold uniqueValueMessages
  refine List.mem_flatMap.mpr ⟨i, List.mem_range.mpr hilen, ?_⟩
  simp only [hgi]
  rw [if_pos ⟨hni, hdi⟩, if_neg hdne]
  exact List.mem_singleton.mpr rfl

/-- Witness for C6: an option with values sharing the name `x` produces an
error message mentioning positions 1 and 2. -/
theorem validateResourceTypes_reports_duplicate_values_witness :
    ∃ msg ∈ validateResourceTypes (fun _ => true)
        [⟨"rt", "RT", some ⟨"d", "l"⟩,
          [⟨"opt", "Opt", [⟨"x", "X"⟩, ⟨"x", "Y"⟩]⟩],
          [fixtureProvider .notebook], none⟩],
      occursIn "same name or display name" msg ∧
      occursIn (toString (0 + 1)) msg ∧ occursIn (toString (1 + 1)) msg :=
  validateResourceTypes_reports_duplicate_values (fun _ => true)
    [⟨"rt", "RT", some ⟨"d", "l"⟩,
      [⟨"opt", "Opt", [⟨"x", "X"⟩, ⟨"x", "Y"⟩]⟩],
      [fixtureProvider .notebook], none⟩]
    0 _ rfl 0 _ rfl 0 1 ⟨"x", "X"⟩ ⟨"x", "Y"⟩ rfl rfl (by decide)
    (Or.inl rfl) (by decide) (by decide)

end ResourceDeployment

namespace ResourceDeployment

/-! ## C4: notebook path rewriting (`updateNotebookPath`) -/

/-- Model of Node's `path.join(a, b)` for one relative segment appended to a
base path: the two parts joined by a separator (the normalization Node
performs is irrelevant for the segments the service passes). -/
def pathJoin (a b : String) : String := a ++ "/" ++ b

/-- JavaScript truthiness of an optional string field (`undefined` and the
empty string are falsy). -/
def truthyOpt : Option String → Bool
  | none => false
  | some s => s ≠ ""

/-- JavaScript truthiness of the `notebook` property: an empty string is
falsy, arrays and objects are truthy. -/
def notebookTruthy : NotebookProperty → Bool
  | .text s => s ≠ ""
  | .perVersion _ => true
  | .perPlatform _ => true

/-- Embedding of `ResourceTypeService.updateNotebookPath(objWithNotebookProperty,
extensionPath)`. The per-platform branch reproduces the source's three
sequential `if` statements verbatim, including which field each one actually
assigns. -/
def updateNotebookPath (objWithNotebookProperty : Option NotebookProperty)
    (extensionPath : String) : Option NotebookProperty :=
  match objWithNotebookProperty with
  | none => none
  | some nb =>
    if notebookTruthy nb then
      match nb with
      | .text path => some (.text (pathJoin extensionPath path))
      | .perVersion entries =>
        some (.perVersion (entries.map (fun e => ⟨pathJoin extensionPath e.path⟩)))
      | .perPlatform p =>
        let p1 :=
          if truthyOpt p.darwin then
            { p with darwin := some (pathJoin extensionPath (p.darwin.getD "")) }
          else p
        let p2 :=
          if truthyOpt p1.win32 then
            { p1 with darwin := some (pathJoin extensionPath (p1.win32.getD "")) }
          else p1
        if truthyOpt p2.linux then
          some (.text (pathJoin extensionPath (p2.linux.getD "")))
        else some (.perPlatform p2)
    else some nb

/-- C4 (code evaluated at the failing inputs): for a per-platform notebook
object the `win32` branch assigns the joined `win32` path to the `darwin`
field and leaves `win32` unchanged, and the `linux` branch replaces the
whole object by a single string, so present fields are not each rewritten in
place and the object's shape is not preserved. -/
theorem updateNotebookPath_platform_fields_bug :
    updateNotebookPath
        (some (.perPlatform ⟨some "d.ipynb", some "w.ipynb", some "l.ipynb"⟩)) "/ext"
      = some (.text "/ext/l.ipynb") ∧
    updateNotebookPath
        (some (.perPlatform ⟨some "d.ipynb", some "w.ipynb", none⟩)) "/ext"
      = some (.perPlatform ⟨some "/ext/w.ipynb", some "w.ipynb", none⟩) := by decide

/-! ## C5: deployment dispatch -/

/-- The side effect performed by the deployment dispatcher, as an explicit
action: which UI is constructed and opened, or which external request is
made. `noAction` records that the dispatcher fell through every branch. -/
inductive DeploymentAction where
  | openDeployClusterWizard
  | openDeployAzureSQLVMWizard
  | openDeployAzureSQLDBWizard
  | openNotebookWizard
  | openDeploymentInputDialog
  | openNotebook (notebook : Option NotebookProperty)
  | startDownloadOperation (url : String)
  | openWebPage (url : String)
  | executeCommand (command : String)
  | noAction
deriving DecidableEq, Inhabited

/-- Embedding of `ResourceTypeService.startDeploymentFromWizard(provider,
resourceType)`: the if/else chain over the `instanceOf*` predicates; a
provider matching none of the six tested shapes performs no action. -/
def startDeploymentFromWizard (provider : DeploymentProvider)
    (_resourceType : Option ResourceType) : DeploymentAction :=
  if instanceOfWizardDeploymentProvider provider then .openDeployClusterWizard
  else if instanceOfDialogDeploymentProvider provider then .openDeploymentInputDialog
  else if instanceOfNotebookDeploymentProvider provider then .openNotebook provider.notebook
  else if instanceOfDownloadDeploymentProvider provider then
    .startDownloadOperation provider.downloadUrl
  else if instanceOfWebPageDeploymentProvider provider then .openWebPage provider.webPageUrl
  else if instanceOfCommandDeploymentProvider provider then .executeCommand provider.command
  else .noAction

/-- Embedding of `ResourceTypeService.startDeployment(resourceType)`: takes
the first declared provider (`resourceType?.providers[0]`) and opens the
azure SQL VM wizard, azure SQL DB wizard, cluster wizard, or notebook wizard
(an empty provider list also falls to the notebook-wizard branch, as every
`instanceOf*` predicate is false on `undefined`). -/
def startDeployment (resourceType : ResourceType) : DeploymentAction :=
  match resourceType.providers.head? with
  | some provider =>
    if instanceOfAzureSQLVMDeploymentProvider provider then .openDeployAzureSQLVMWizard
    else if instanceOfAzureSQLDBDeploymentProvider provider then .openDeployAzureSQLDBWizard
    else if instanceOfWizardDeploymentProvider provider then .openDeployClusterWizard
    else .openNotebookWizard
  | none => .openNotebookWizard

/-- Counterexample to C5 as stated: dispatching an azure-SQL-VM-wizard or
azure-SQL-DB-wizard provider through `startDeploymentFromWizard` performs no
action at all — the if/else chain has no branch for these two variants. -/
theorem startDeploymentFromWizard_azure_counterexample :
    startDeploymentFromWizard (fixtureProvider .azureSQLVMWizard) none
      = .noAction ∧
    startDeploymentFromWizard (fixtureProvider .azureSQLDBWizard) none
      = .noAction ∧
    DeploymentAction.noAction ≠ .openDeployAzureSQLVMWizard ∧
    DeploymentAction.noAction ≠ .openDeployAzureSQLDBWizard := by decide

/-- C5 (amended): `startDeploymentFromWizard` performs no action for the
azure-SQL-VM-wizard and azure-SQL-DB-wizard variants, whatever resource type
is passed alongside; the corresponding wizards are constructed and opened by
`startDeployment`, which dispatches on the resource type's first declared
provider. -/
theorem azure_wizard_dispatch :
    (∀ (p : DeploymentProvider) (rt : Option ResourceType),
      p.kind = .azureSQLVMWizard ∨ p.kind = .azureSQLDBWizard →
        startDeploymentFromWizard p rt = .noAction) ∧
    (∀ (rt : ResourceType) (p : DeploymentProvider),
      rt.providers.head? = some p → p.kind = .azureSQLVMWizard →
        startDeployment rt = .openDeployAzureSQLVMWizard) ∧
    (∀ (rt : ResourceType) (p : DeploymentProvider),
      rt.providers.head? = some p → p.kind = .azureSQLDBWizard →
        startDeployment rt = .openDeployAzureSQLDBWizard) := by
  refine ⟨?_, ?_, ?_⟩
  · rintro p rt (h | h) <;>
      simp [startDeploymentFromWizard, instanceOfWizardDeploymentProvider,
        instanceOfDialogDeploymentProvider, instanceOfNotebookDeploymentProvider,
        instanceOfDownloadDeploymentProvider, instanceOfWebPageDeploymentProvider,
        instanceOfCommandDeploymentProvider, h]
  · intro rt p hh hk
    simp [startDeployment, hh, instanceOfAzureSQLVMDeploymentProvider, hk]
  · intro rt p hh hk
    simp [startDeployment, hh, instanceOfAzureSQLVMDeploymentProvider,
      instanceOfAzureSQLDBDeploymentProvider, hk]

/-- Witness for C5 (amended): concrete azure SQL VM fixtures for both the
no-action dispatch and the wizard opened by `startDeployment`. -/
theorem azure_wizard_dispatch_witness :
    startDeploymentFromWizard (fixtureProvider .azureSQLVMWizard) none = .noAction ∧
    startDeployment ⟨"t", "T", none, [], [fixtureProvider .azureSQLVMWizard], none⟩
      = .openDeployAzureSQLVMWizard :=
  ⟨azure_wizard_dispatch.1 (fixtureProvider .azureSQLVMWizard) none (Or.inl rfl),
    azure_wizard_dispatch.2.1 ⟨"t", "T", none, [], [fixtureProvider .azureSQLVMWizard], none⟩
      (fixtureProvider .azureSQLVMWizard) rfl rfl⟩

end ResourceDeployment

namespace ResourceDeployment

/-! ## The download helper (`ResourceTypeService.download`)

The response callback of `https.get` is embedded as a pure step function
over the response and an existence predicate standing for the filesystem
(`fs.access`); the unbounded collision-probing `while` loop is embedded with
explicit fuel and an `Option` result. -/

/-- Model of Node's `path.basename(p)` without extension stripping: the last
path segment, ignoring trailing separators. -/
def baseNameRaw (l : List Char) : List Char :=
  ((l.reverse.dropWhile (· = '/')).takeWhile (· ≠ '/')).reverse

/-- Model of Node's `path.extname(p)`: from the last dot of the base name to
the end, empty when the base name has no dot or starts with its only dot. -/
def extname (s : String) : String :=
  let b := baseNameRaw s.data
  let revExt := b.reverse.takeWhile (· ≠ '.')
  if revExt.length = b.length then ""
  else if revExt.length + 1 = b.length then ""
  else String.mk ('.' :: revExt.reverse)

/-- Model of Node's `path.basename(p, ext)`: the last path segment, with the
suffix `ext` removed when it is a proper suffix. -/
def basename (s ext : String) : String :=
  let b := baseNameRaw s.data
  if ext.data.isSuffixOf b ∧ b ≠ ext.data then
    String.mk (b.take (b.length - ext.data.length))
  else String.mk b

/-- An HTTP response as far as `download` inspects it. -/
structure HttpResponse where
  statusCode : Nat
  statusMessage : String
  location : Option String
deriving DecidableEq, Inhabited

/-- The action `download` takes on a response: re-issue against the
redirect location, reject with an error message, or stream to a file name. -/
inductive DownloadStep where
  | redirect (location : Option String)
  | reject (message : String)
  | save (fileName : String)
deriving DecidableEq, Inhabited

/-- The message of the `downloadError` rejection: the localization template
`Download failed, status code: {0}, message: {1}` instantiated. -/
def downloadErrorMessage (statusCode : Nat) (statusMessage : String) : String :=
  "Download failed, status code: " ++ toString statusCode
    ++ ", message: " ++ statusMessage

/-- The candidate file name tried at probe index `k`: the original base name
plus extension, with `-k` inserted from the first retry on. -/
def candidateFileName (originalFileName extension : String) (k : Nat) : String :=
  if k = 0 then originalFileName ++ extension
  else originalFileName ++ "-" ++ toString k ++ extension

/-- The collision-probing `while` loop of `download`: try candidate names in
order until one does not exist; `fuel` bounds the iterations examined (the
source loop is unbounded). -/
def probeFileName (fsExists : String → Bool)
    (downloadFolder originalFileName extension : String) : Nat → Nat → Option String
  | 0, _ => none
  | fuel + 1, k =>
    if fsExists (pathJoin downloadFolder (candidateFileName originalFileName extension k))
    then probeFileName fsExists downloadFolder originalFileName extension fuel (k + 1)
    else some (candidateFileName originalFileName extension k)

/-- The target folder of a download: the user's `Downloads` directory when
it exists, the home directory otherwise. -/
def downloadFolderOf (fsExists : String → Bool) (homedir : String) : String :=
  if fsExists (pathJoin homedir "Downloads") then pathJoin homedir "Downloads" else homedir

/-- Embedding of the response callback of `ResourceTypeService.download`:
redirect on 301/302, reject with the status text on any other non-200, and
otherwise choose a collision-free file name to stream the body to. -/
def downloadStep (url : String) (response : HttpResponse) (fsExists : String → Bool)
    (homedir : String) (fuel : Nat) : Option DownloadStep :=
  if response.statusCode = 301 ∨ response.statusCode = 302 then
    some (.redirect response.location)
  else if response.statusCode ≠ 200 then
    some (.reject (downloadErrorMessage response.statusCode response.statusMessage))
  else
    let extension := extname url
    let originalFileName := basename url extension
    let downloadFolder := downloadFolderOf fsExists homedir
    (probeFileName fsExists downloadFolder originalFileName extension fuel 0).map
      (fun name => .save (pathJoin downloadFolder name))

/-- C7: on any status other than 200, 301 and 302, `download` rejects with a
message containing the status code and the status message, and no file name
is ever chosen to be created. -/
theorem download_rejects_on_error_status (url : String) (response : HttpResponse)
    (fsExists : String → Bool) (homedir : String) (fuel : Nat)
    (h200 : response.statusCode ≠ 200) (h301 : response.statusCode ≠ 301)
    (h302 : response.statusCode ≠ 302) :
    ∃ msg, downloadStep url response fsExists homedir fuel = some (.reject msg) ∧
      occursIn (toString response.statusCode) msg ∧
      occursIn response.statusMessage msg ∧
      ∀ fileName, downloadStep url response fsExists homedir fuel ≠ some (.save fileName) := by
  have hstep : downloadStep url response fsExists homedir fuel
      = some (.reject (downloadErrorMessage response.statusCode response.statusMessage)) := by
    unfold downloadStep
    rw [if_neg (by rintro (h | h) <;> [exact h301 h; exact h302 h]), if_pos h200]
  refine ⟨downloadErrorMessage response.statusCode response.statusMessage, hstep, ?_, ?_, ?_⟩
  · exact occursIn_append_right _ (occursIn_append_right _ (occursIn_right _ _))
  · exact occursIn_right _ _
  · intro fileName hne
    rw [hstep] at hne
    simp at hne

/-- Witness for C7: a 404 response rejects with a message containing 404 and
the status message, and saves nothing. -/
theorem download_rejects_on_error_status_witness :
    ∃ msg, downloadStep "https://contoso.com/report.pdf" ⟨404, "Not Found", none⟩
        (fun _ => false) "/home/u" 5 = some (.reject msg) ∧
      occursIn (toString (404 : Nat)) msg ∧
      occursIn "Not Found" msg ∧
      ∀ fileName, downloadStep "https://contoso.com/report.pdf" ⟨404, "Not Found", none⟩
        (fun _ => false) "/home/u" 5 ≠ some (.save fileName) :=
  download_rejects_on_error_status "https://contoso.com/report.pdf"
    ⟨404, "Not Found", none⟩ (fun _ => false) "/home/u" 5
    (by decide) (by decide) (by decide)

end ResourceDeployment

namespace ResourceDeployment

/-! ## C8: collision avoidance of the download file name -/

theorem probeFileName_first_free (fsExists : String → Bool)
    (folder orig ext : String) (fuel k : Nat) (name : String)
    (h : probeFileName fsExists folder orig ext fuel k = some name) :
    ∃ n, k ≤ n ∧ name = candidateFileName orig ext n ∧
      fsExists (pathJoin folder (candidateFileName orig ext n)) = false ∧
      ∀ m, k ≤ m → m < n →
        fsExists (pathJoin folder (candidateFileName orig ext m)) = true := by
  induction fuel generalizing k with
  | zero => exact absurd h (by simp [probeFileName])
  | succ fuel ih =>
    unfold probeFileName at h
    by_cases hex : fsExists (pathJoin folder (candidateFileName orig ext k))
    · rw [if_pos hex] at h
      obtain ⟨n, hkn, hname, hfree, hall⟩ := ih (k + 1) h
      refine ⟨n, Nat.le_trans (Nat.le_succ k) hkn, hname, hfree, ?_⟩
      intro m hkm hmn
      by_cases hmk : m = k
      · exact hmk ▸ hex
      · exact hall m (by omega) hmn
    · rw [if_neg hex] at h
      injection h with h
      exact ⟨k, Nat.le_refl k, h.symm, Bool.of_not_eq_true hex,
        fun m hkm hmk => absurd (Nat.lt_of_lt_of_le hmk hkm) (Nat.lt_irrefl m)⟩

/-- C8: whenever `download` (on a 200 response) resolves to a file name, that
name is the first candidate — base name, then `base-1`, `base-2`, … — whose
path does not already exist in the target folder; every earlier candidate
exists. -/
theorem download_collision_avoidance (url : String) (response : HttpResponse)
    (fsExists : String → Bool) (homedir : String) (fuel : Nat) (result : String)
    (h200 : response.statusCode = 200)
    (hsave : downloadStep url response fsExists homedir fuel
      = some (.save result)) :
    ∃ n, result = pathJoin (downloadFolderOf fsExists homedir)
        (candidateFileName (basename url (extname url)) (extname url) n) ∧
      fsExists (pathJoin (downloadFolderOf fsExists homedir)
        (candidateFileName (basename url (extname url)) (extname url) n)) = false ∧
      ∀ m < n, fsExists (pathJoin (downloadFolderOf fsExists homedir)
        (candidateFileName (basename url (extname url)) (extname url) m)) = true := by
  unfold downloadStep at hsave
  rw [if_neg (by rw [h200]; rintro (h | h) <;> simp at h), if_neg (by rw [h200]; simp)]
    at hsave
  rw [Option.map_eq_some'] at hsave
  obtain ⟨name, hprobe, hsaveEq⟩ := hsave
  obtain ⟨n, -, hname, hfree, hall⟩ :=
    probeFileName_first_free fsExists (downloadFolderOf fsExists homedir)
      (basename url (extname url)) (extname url) fuel 0 name hprobe
  refine ⟨n, ?_, hfree, fun m hm => hall m (Nat.zero_le m) hm⟩
  injection hsaveEq with hsaveEq
  rw [← hsaveEq, hname]

/-- Witness for C8: with `report.pdf` already present in the downloads
folder, a download of the same URL resolves to `report-1.pdf`. -/
theorem download_collision_avoidance_witness :
    ∃ n, ("/home/u/Downloads" ++ "/" ++ "report-1.pdf" : String)
        = pathJoin
          (downloadFolderOf
            (fun s => s == "/home/u/Downloads" || s == "/home/u/Downloads/report.pdf")
            "/home/u")
          (candidateFileName
            (basename "https://contoso.com/report.pdf"
              (extname "https://contoso.com/report.pdf"))
            (extname "https://contoso.com/report.pdf") n) ∧
      (fun s => s == "/home/u/Downloads" || s == "/home/u/Downloads/report.pdf")
        (pathJoin
          (downloadFolderOf
            (fun s => s == "/home/u/Downloads" || s == "/home/u/Downloads/report.pdf")
            "/home/u")
          (candidateFileName
            (basename "https://contoso.com/report.pdf"
              (extname "https://contoso.com/report.pdf"))
            (extname "https://contoso.com/report.pdf") n)) = false ∧
      ∀ m < n, (fun s => s == "/home/u/Downloads" || s == "/home/u/Downloads/report.pdf")
        (pathJoin
          (downloadFolderOf
            (fun s => s == "/home/u/Downloads" || s == "/home/u/Downloads/report.pdf")
            "/home/u")
          (candidateFileName
            (basename "https://contoso.com/report.pdf"
              (extname "https://contoso.com/report.pdf"))
            (extname "https://contoso.com/report.pdf") m)) = true :=
  download_collision_avoidance "https://contoso.com/report.pdf" ⟨200, "OK", none⟩
    (fun s => s == "/home/u/Downloads" || s == "/home/u/Downloads/report.pdf")
    "/home/u" 5 ("/home/u/Downloads" ++ "/" ++ "report-1.pdf") rfl (by decide)

end ResourceDeployment

namespace ResourceDeployment

/-! ## C9: the `FlatAccountTreeNodeLoader.start` re-entrancy guard

`start` runs on the single-threaded extension event loop; its guard
(`if (this._isLoading) return;`), the flag assignment, the node-list reset
and the status event all execute in the synchronous prefix before the first
`await`, so they form one atomic step.  The state is extended with a ghost
counter of load bodies that have entered and not yet completed, which makes
the at-most-one-load property stateable. -/

/-- The observable loader state (`_isLoading`, `_nodes`), plus the ghost
count of in-flight load bodies. -/
structure LoaderState where
  isLoading : Bool
  nodes : List String
  activeLoads : Nat
deriving DecidableEq, Inhabited

/-- The events a loader can fire. -/
inductive LoaderEvent where
  | loadingStatusChanged
  | newResourcesAvailable
deriving DecidableEq, Inhabited

/-- The synchronous entry of `FlatAccountTreeNodeLoader.start` (the guard,
then `_isLoading = true`, `_nodes = []` and the status event): the new state
and the events fired. -/
def startEntry (s : LoaderState) : LoaderState × List LoaderEvent :=
  if s.isLoading then (s, [])
  else (⟨true, [], s.activeLoads + 1⟩, [.loadingStatusChanged])

/-- The completion of a load body (`_isLoading = false` and the closing
status event), with the nodes the load produced. -/
def finishLoad (s : LoaderState) (finalNodes : List String) :
    LoaderState × List LoaderEvent :=
  (⟨false, finalNodes, s.activeLoads - 1⟩, [.loadingStatusChanged])

/-- One scheduling step of the loader: a call to `start`, or the completion
of a running load. -/
inductive LoaderOp where
  | start
  | finish (finalNodes : List String)

/-- Apply one operation to the loader state. -/
def loaderStep (s : LoaderState) : LoaderOp → LoaderState
  | .start => (startEntry s).1
  | .finish ns => (finishLoad s ns).1

/-- Run a sequence of operations from a state. -/
def runLoader (s : LoaderState) : List LoaderOp → LoaderState
  | [] => s
  | op :: rest => runLoader (loaderStep s op) rest

/-- The loader invariant: the ghost load count is `1` exactly while
`_isLoading` is set. -/
def loaderInv (s : LoaderState) : Prop :=
  s.activeLoads = (if s.isLoading then 1 else 0)

theorem loaderStep_inv (s : LoaderState) (op : LoaderOp) (h : loaderInv s) :
    loaderInv (loaderStep s op) := by
  cases op with
  | start =>
    by_cases hl : s.isLoading
    · simpa [loaderStep, startEntry, hl] using h
    · simp [loaderInv, hl] at h
      simp [loaderStep, startEntry, loaderInv, hl, h]
  | finish ns =>
    by_cases hl : s.isLoading <;>
      simp [loaderInv, hl] at h <;>
      simp [loaderStep, finishLoad, loaderInv, h]

theorem runLoader_inv (s : LoaderState) (ops : List LoaderOp) (h : loaderInv s) :
    loaderInv (runLoader s ops) := by
  induction ops generalizing s with
  | nil => exact h
  | cons op rest ih => exact ih (loaderStep s op) (loaderStep_inv s op h)

/-- C9: a call to `start` while a load is in progress returns immediately —
the state is unchanged (the node list is not cleared, the loading flag is
untouched) and no event fires; and from the initial state, at most one load
body is ever in flight, whatever sequence of starts and completions runs. -/
theorem loader_no_reentrant_load :
    (∀ s : LoaderState, s.isLoading = true → startEntry s = (s, [])) ∧
    (∀ ops : List LoaderOp, (runLoader ⟨false, [], 0⟩ ops).activeLoads ≤ 1) := by
  constructor
  · intro s h
    simp [startEntry, h]
  · intro ops
    have hinv : loaderInv (runLoader ⟨false, [], 0⟩ ops) :=
      runLoader_inv ⟨false, [], 0⟩ ops (by simp [loaderInv])
    rw [loaderInv] at hinv
    by_cases hl : (runLoader ⟨false, [], 0⟩ ops).isLoading <;> simp [hl] at hinv <;> omega

/-- Witness for C9: a loader busy with one load ignores a second `start`,
and a concrete schedule with an overlapping start keeps the load count at
one. -/
theorem loader_no_reentrant_load_witness :
    startEntry ⟨true, ["node"], 1⟩ = (⟨true, ["node"], 1⟩, []) ∧
    (runLoader ⟨false, [], 0⟩ [.start, .start, .finish ["n"]]).activeLoads ≤ 1 :=
  ⟨loader_no_reentrant_load.1 ⟨true, ["node"], 1⟩ rfl,
    loader_no_reentrant_load.2 [.start, .start, .finish ["n"]]⟩

end ResourceDeployment
